import Mathlib

/-!
# Verification of the nf-class channel-matching and code-generation core

Shallow embedding of the schema-matching logic of `nf_class` (files
`nf_class/classes/expand.py`, `nf_class/subworkflows/create.py`,
`nf_class/utils.py`).  YAML-derived channel descriptions are modelled as
explicit trees, Python lists as `List`, Python dicts as association lists
with first-key access, Python `None`-returning functions as `Option`.
-/

/-- One channel element's metadata mapping, as read by the matcher.
The source reads the keys `type` and `ontologies` (`expand.py`
`_compare_channels`); real `meta.yml` element mappings also carry a
filename `pattern` key, which we record to be able to state pattern
properties (the matcher never reads it).  An absent key is `none`. -/
structure ElementMeta where
  type : String
  ontologies : Option (List String)
  pattern : Option String
deriving DecidableEq

/-- A named channel element: a single-key YAML mapping `name -> metadata`.
The source always accesses `list(element.keys())[0]` and then indexes with
that key, i.e. the first (only) key of the mapping. -/
structure NamedElement where
  key : String
  meta : ElementMeta
deriving DecidableEq

/-- A channel description as the matcher sees it: either a YAML list of
named elements, or a YAML mapping (the code branches on
`isinstance(..., list)` / `isinstance(..., dict)`).  For the mapping case
the code reads `list(d.keys())[0]`, so we keep the first entry separate
(the mapping is non-empty wherever the code runs without raising); the
remaining entries only contribute to `len(d)`. -/
inductive Channel where
  | list (elems : List NamedElement)
  | dict (first : NamedElement) (rest : List NamedElement)
deriving DecidableEq

/-- `ClassExpand._compare_channels` (classes/expand.py lines 383-394) and
the textually identical `SubworkflowExpandClass._compare_channels`
(subworkflows/create.py lines 218-229): two elements are compatible when
their `type` values are equal, except that for `file`-typed elements that
both carry an `ontologies` list, every class ontology term must be
present among the component's ontology terms. -/
def compare_channels (component_element class_element : ElementMeta) : Bool :=
  if component_element.type ≠ class_element.type then
    false
  else if component_element.type = "file"
      ∧ component_element.ontologies.isSome
      ∧ class_element.ontologies.isSome
      ∧ ¬ ((class_element.ontologies.getD []).all
            (fun term => (component_element.ontologies.getD []).contains term)) then
    false
  else
    true

/-- Example elements used by concrete counterexamples/witnesses below. -/
def fileElemBam : ElementMeta := { type := "file", ontologies := none, pattern := some "*.bam" }

def fileElemSam : ElementMeta := { type := "file", ontologies := none, pattern := some "*.sam" }

/-- The Python length of a channel value: `len` of the list, or the number
of keys of the mapping. -/
def channelPyLen : Channel → Nat
  | .list elems => elems.length
  | .dict _ rest => rest.length + 1

/-- One component channel against one class input channel, i.e. the body
of the inner loop of `_compare_inputs` (expand.py lines 403-428): the
`type(...) is type(...)` guard, then for lists the length test
`len(component_channel) == len(class_channel) - 1` (Python integer
arithmetic, hence the `Int` cast) followed by the elementwise
`_compare_channels` over `zip`, and for mappings a single
`_compare_channels` on the first entries. -/
def input_channel_match (component_channel class_channel : Channel) : Bool :=
  match component_channel, class_channel with
  | .list ces, .list cls =>
    if (ces.length : Int) = (cls.length : Int) - 1 then
      (ces.zip cls).all fun p => compare_channels p.1.meta p.2.meta
    else
      false
  | .dict cf _, .dict kf _ => compare_channels cf.meta kf.meta
  | .list _, .dict _ _ => false
  | .dict _ _, .list _ => false

/-- The inner `for class_channel, ch_name in zip(...)` loop of
`_compare_inputs`: the name of the first class input channel the
component channel matches, or `none`. -/
def find_input_arg (pairs : List (Channel × String)) (component_channel : Channel) :
    Option String :=
  match pairs with
  | [] => none
  | (class_channel, ch_name) :: rest =>
    if input_channel_match component_channel class_channel then some ch_name
    else find_input_arg rest component_channel

/-- Python's `str([[]] * n)`. -/
def pyStrListOfEmpty (n : Nat) : String :=
  "[" ++ String.intercalate ", " (List.replicate n "[]") ++ "]"

/-- The fallback argument appended by `ClassExpand._compare_inputs`
(expand.py lines 429-433) for a component channel with no matching class
channel: `str([[]] * len(component_channel))` when the channel has more
than one element, else `"[]"`. -/
def fallback_arg_expand (component_channel : Channel) : String :=
  if channelPyLen component_channel > 1 then pyStrListOfEmpty (channelPyLen component_channel)
  else "[]"

/-- The `component_run_args` list built by `ClassExpand._compare_inputs`
(expand.py lines 399-433): one entry per component input channel, the
matched class channel name or the fallback. -/
def component_run_args_expand (inputs_yml : List Channel) (input_channel_names : List String)
    (component_info : List Channel) : List String :=
  component_info.map fun component_channel =>
    match find_input_arg (inputs_yml.zip input_channel_names) component_channel with
    | some ch_name => ch_name
    | none => fallback_arg_expand component_channel

/-- `ClassExpand._compare_inputs` (expand.py lines 396-438). -/
def compare_inputs_expand (inputs_yml : List Channel) (input_channel_names : List String)
    (component_info : List Channel) : Option (List String) :=
  let component_run_args := component_run_args_expand inputs_yml input_channel_names component_info
  if input_channel_names.all (fun name => component_run_args.contains name) then
    some component_run_args
  else
    none

/-- The `component_run_args` list built by
`SubworkflowExpandClass._compare_inputs` (subworkflows/create.py lines
233-264); its fallback is always `"[]"`. -/
def component_run_args_swf (inputs_yml : List Channel) (input_channel_names : List String)
    (component_info : List Channel) : List String :=
  component_info.map fun component_channel =>
    match find_input_arg (inputs_yml.zip input_channel_names) component_channel with
    | some ch_name => ch_name
    | none => "[]"

/-- `SubworkflowExpandClass._compare_inputs` (subworkflows/create.py
lines 231-269). -/
def compare_inputs_swf (inputs_yml : List Channel) (input_channel_names : List String)
    (component_info : List Channel) : Option (List String) :=
  let component_run_args := component_run_args_swf inputs_yml input_channel_names component_info
  if input_channel_names.all (fun name => component_run_args.contains name) then
    some component_run_args
  else
    none

/-- One component output channel entry against one class output channel
entry in `_compare_outputs` (expand.py lines 446-471): the code compares
`component_channel[0]` with `class_channel[0]`; both arguments here stand
for those first items.  Lists must have equal lengths. -/
def output_channel_match (component_channel class_channel : Channel) : Bool :=
  match component_channel, class_channel with
  | .list ces, .list cls =>
    if ces.length = cls.length then
      (ces.zip cls).all fun p => compare_channels p.1.meta p.2.meta
    else
      false
  | .dict cf _, .dict kf _ => compare_channels cf.meta kf.meta
  | .list _, .dict _ _ => false
  | .dict _ _, .list _ => false

/-- The inner `for ch_name, class_channel in self.outputs_yml.items()`
loop of `_compare_outputs`: the first class output channel the component
output channel matches. -/
def find_output_match (outputs_yml : List (String × Channel)) (component_channel : Channel) :
    Option String :=
  match outputs_yml with
  | [] => none
  | (ch_name, class_channel) :: rest =>
    if output_channel_match component_channel class_channel then some ch_name
    else find_output_match rest component_channel

/-- Python dict assignment `d[k] = v` on a dict modelled as an ordered
association list: an existing key keeps its position and gets the new
value, a new key is appended. -/
def dictSet : List (String × String) → String → String → List (String × String)
  | [], k, v => [(k, v)]
  | (k', v') :: rest, k, v =>
    if k' = k then (k, v) :: rest else (k', v') :: dictSet rest k v

/-- The `component_out_channels` dict built by the outer loop of
`_compare_outputs` (expand.py lines 443-471): for each component output
channel (in order), assign `d[matched class name] = component name` when
a class output channel matches. -/
def component_out_channels_fold (outputs_yml : List (String × Channel))
    (acc : List (String × String)) : List (String × Channel) → List (String × String)
  | [] => acc
  | (component_ch_name, component_channel) :: rest =>
    match find_output_match outputs_yml component_channel with
    | some ch_name =>
      component_out_channels_fold outputs_yml (dictSet acc ch_name component_ch_name) rest
    | none => component_out_channels_fold outputs_yml acc rest

/-- `ClassExpand._compare_outputs` (expand.py lines 440-475), textually
identical to `SubworkflowExpandClass._compare_outputs`
(subworkflows/create.py lines 271-305).  `outputs_yml` and
`component_info` list the `(name, channel[0])` entries in insertion
order. -/
def compare_outputs_expand (outputs_yml : List (String × Channel))
    (component_info : List (String × Channel)) : Option (List (String × String)) :=
  let component_out_channels := component_out_channels_fold outputs_yml [] component_info
  if (outputs_yml.map Prod.fst).all
      (fun name => (component_out_channels.map Prod.fst).contains name) then
    some component_out_channels
  else
    none

/-- Python `list.remove(x)`: drop the first occurrence of `x`. -/
def pyRemoveFirst : List String → String → List String
  | [], _ => []
  | x :: xs, y => if x = y then xs else x :: pyRemoveFirst xs y

/-- Python `s.split(",")`: split at every comma, keeping empty pieces. -/
def splitCommaAux : List Char → List Char → List String
  | [], acc => [String.mk acc.reverse]
  | c :: rest, acc =>
    if c = ',' then String.mk acc.reverse :: splitCommaAux rest []
    else splitCommaAux rest (c :: acc)

def pySplitComma (s : String) : List String :=
  splitCommaAux s.data []

/-- The `for module in self.components: ... self.components.remove(module)`
loop of `_get_modules_from_class` (expand.py lines 376-379), with Python's
list-iterator semantics: the iterator fetches index `j` of the *current*
list state and advances `j` even when the body removed an element.  `fuel`
is an upper bound on the number of iterations (the loop runs while
`j < len(components)` and every iteration increases `j` by one, so the
initial list length suffices). -/
def skipMissingLoop (class_modules : List String) : Nat → Nat → List String → List String
  | 0, _, components => components
  | fuel + 1, j, components =>
    if h : j < components.length then
      let module := components.get ⟨j, h⟩
      let components' :=
        if class_modules.contains module then components
        else pyRemoveFirst components module
      skipMissingLoop class_modules fuel (j + 1) components'
    else components

/-- `ClassExpand._get_modules_from_class` (expand.py lines 372-381),
textually identical in subworkflows/create.py lines 207-216: with a
non-empty `expand_modules` string, split it at commas and drop requested
modules that are not declared by the class; otherwise take the class's
full module list (a copy). -/
def get_modules_from_class (expand_modules : String) (class_modules : List String) :
    List String :=
  if expand_modules ≠ "" then
    let requested := pySplitComma expand_modules
    skipMissingLoop class_modules requested.length 0 requested
  else
    class_modules

/-- Python `s.replace("/", "_")`. -/
def pyReplaceSlashUnderscore (s : String) : String :=
  String.mk (s.data.map fun c => if c = '/' then '_' else c)

/-- Python `s.upper()` (ASCII model, matching the repository's module
names). -/
def pyUpper (s : String) : String :=
  String.mk (s.data.map Char.toUpper)

/-- `component.replace("/", "_").upper()` (expand.py line 354). -/
def module_name_of (component : String) : String :=
  pyUpper (pyReplaceSlashUnderscore component)

/-- The invocation statement appended when `component_args` is truthy
(expand.py line 361): `    NAME( arg1, arg2, ... )`. -/
def invocation_statement (module_name : String) (component_args : List String) : String :=
  "    " ++ module_name ++ "( " ++ String.intercalate ", " component_args ++ " )\n"

/-- The `ch_out_... = ch_out_....mix(NAME.out....)` lines appended when
`component_outs` is truthy (expand.py lines 363-366). -/
def mix_statements (module_name : String) : List (String × String) → String
  | [] => ""
  | (out_channel, comp_out) :: rest =>
    "    ch_out_" ++ out_channel ++ " = ch_out_" ++ out_channel ++ ".mix("
      ++ module_name ++ ".out." ++ comp_out ++ ")\n"
      ++ mix_statements module_name rest

/-- Python truthiness of an `Optional[list]`: `None` and `[]` are falsy. -/
def pyTruthyList : Option (List String) → Bool
  | none => false
  | some l => !l.isEmpty

/-- Python truthiness of an `Optional[dict]`: `None` and `{}` are falsy. -/
def pyTruthyPairs : Option (List (String × String)) → Bool
  | none => false
  | some l => !l.isEmpty

/-- The `run_module` text appended for one component by the loop of
`_get_info_for_expanding` (expand.py lines 348-367): the invocation when
the input match is truthy, the mix lines when the output match is truthy,
then a blank line. -/
def run_module_chunk (module_name : String) (component_args : Option (List String))
    (component_outs : Option (List (String × String))) : String :=
  (if pyTruthyList component_args then
    invocation_statement module_name (component_args.getD []) else "")
  ++ (if pyTruthyPairs component_outs then
    mix_statements module_name (component_outs.getD []) else "")
  ++ "\n"

/-- Truthiness of `os.environ.get(KEY, False)`: an unset variable gives
the falsy `False`, a set variable is truthy when non-empty. -/
def pyEnvTruthy : Option String → Bool
  | none => false
  | some s => !s.isEmpty

/-- `re.sub(r"[^0-9\.]", "", s)`: keep only digits and dots. -/
def pyCleanVersion (s : String) : String :=
  String.mk (s.data.filter fun c => c.isDigit || c = '.')

/-- `check_if_outdated` (utils.py lines 32-60).  External effects are
parameters: `env_no_version_check` / `env_version_url` are the two
environment variables, `fetch_remote_version` maps the requested URL to
the fetched version (`none` models the exception path, after which
`remote_version` stays `None`), and `version_gt` models
`packaging.version`'s `Version(a) > Version(b)`.  The third component of
the Python result tuple may be `None`, hence `Option String`. -/
def check_if_outdated (nf_class_version : String) (version_gt : String → String → Bool)
    (env_no_version_check env_version_url : Option String)
    (fetch_remote_version : String → Option String)
    (current_version remote_version : Option String)
    (source_url : String) : Bool × String × Option String :=
  if pyEnvTruthy env_no_version_check then
    (true, "", some "")
  else
    let current := match current_version with
      | none => nf_class_version
      | some v => v
    let current := pyCleanVersion current
    let base_url := match env_version_url with
      | none => source_url
      | some u => u
    let url := base_url ++ "?v=" ++ current
    let remote := match remote_version with
      | none => fetch_remote_version url
      | some v => some v
    let is_outdated := match remote with
      | none => false
      | some r => version_gt r current
    (is_outdated, current, remote)

/-- Python string comparison `a <= b`: lexicographic on code points. -/
def lexLe : List Char → List Char → Bool
  | [], _ => true
  | _ :: _, [] => false
  | a :: as, b :: bs => if a < b then true else if b < a then false else lexLe as bs

def pyStrLe (a b : String) : Bool :=
  lexLe a.data b.data

/-- Python `s.endswith(suffix)`. -/
def pyEndsWith (s suffix : String) : Bool :=
  suffix.data.isSuffixOf s.data

/-- Python `fn.split(".yml")[0]`: the prefix before the first occurrence
of the separator (the whole string when the separator never occurs). -/
def pySplitFirstAux (sep : List Char) : List Char → List Char
  | [] => []
  | c :: rest =>
    if sep.isPrefixOf (c :: rest) then []
    else c :: pySplitFirstAux sep rest

def pySplitFirst (sep : String) (s : String) : String :=
  String.mk (pySplitFirstAux sep.data s.data)

/-- `get_available_classes` (utils.py lines 75-88): `walk_file_names`
lists, per directory visited by `os.walk` of the `classes` directory and
in walk order, the file names found there.  The comprehension keeps the
`.yml`-suffixed names, truncates each at the first `.yml`, and the result
is `sorted(...)` (a stable sort under Python's string order, modelled by
insertion sort under `pyStrLe`). -/
def get_available_classes (walk_file_names : List (List String)) : List String :=
  let available_classes :=
    (walk_file_names.flatten.filter fun fn => pyEndsWith fn ".yml").map (pySplitFirst ".yml")
  available_classes.insertionSort fun a b => pyStrLe a b = true

/-- Example metadata and elements for the concrete inputs used by
counterexamples and witnesses below. -/
def strMetaEx : ElementMeta := { type := "string", ontologies := none, pattern := none }

def xElemEx : NamedElement := { key := "x", meta := strMetaEx }

def toolElemEx : NamedElement := { key := "tool", meta := strMetaEx }

/-- A class input channel of the example: one data element plus the
appended `tool` element. -/
def classChanEx : Channel := Channel.list [xElemEx, toolElemEx]

/-- A matching one-element component channel. -/
def compChanEx : Channel := Channel.list [xElemEx]

/-- An unmatched two-element component channel. -/
def compChanEx2 : Channel := Channel.list [xElemEx, xElemEx]

instance : IsTotal String fun a b => pyStrLe a b = true := by
  constructor
  intro a b
  unfold pyStrLe
  generalize a.data = xs
  generalize b.data = ys
  induction xs generalizing ys with
  | nil => left; rfl
  | cons x xs ih =>
    cases ys with
    | nil => right; rfl
    | cons y ys =>
      by_cases h1 : x < y
      · left; simp [lexLe, h1]
      · by_cases h2 : y < x
        · right; simp [lexLe, h2]
        · rcases ih ys with h | h
          · left; simp [lexLe, h1, h2, h]
          · right; simp [lexLe, h1, h2, h]

instance : IsTrans String fun a b => pyStrLe a b = true := by
  constructor
  intro a b c
  unfold pyStrLe
  generalize a.data = xs
  generalize b.data = ys
  generalize c.data = zs
  intro hxy hyz
  induction xs generalizing ys zs with
  | nil => rfl
  | cons x xs ih =>
    cases ys with
    | nil => simp [lexLe] at hxy
    | cons y ys =>
      cases zs with
      | nil => simp [lexLe] at hyz
      | cons z zs =>
        simp only [lexLe] at hxy hyz ⊢
        split at hxy
        · next hlt =>
          split at hyz
          · next hlt2 => simp [lt_trans hlt hlt2]
          · next hge2 =>
            split at hyz
            · exact absurd hyz (by simp)
            · next hge2b =>
              have : y = z := le_antisymm (not_lt.mp hge2b) (not_lt.mp hge2)
              subst this
              simp [hlt]
        · next hge =>
          split at hxy
          · exact absurd hxy (by simp)
          · next hge1b =>
            have hxyeq : x = y := le_antisymm (not_lt.mp hge1b) (not_lt.mp hge)
            subst hxyeq
            split at hyz
            · next hlt2 => simp [hlt2]
            · next hge2 =>
              split at hyz
              · exact absurd hyz (by simp)
              · next hge2b =>
                have : x = z := le_antisymm (not_lt.mp hge2b) (not_lt.mp hge2)
                subst this
                simp only [lt_irrefl, if_false]
                exact ih _ _ hxy hyz
/-- Lemma: the matcher never reads the `pattern` field. -/
theorem compare_channels_pattern_irrelevant (ce cl : ElementMeta) (p q : Option String) :
    compare_channels { ce with pattern := p } { cl with pattern := q }
      = compare_channels ce cl := by
  simp [compare_channels]

/-- Characterisation of `_compare_channels` as a Boolean predicate. -/
theorem compare_channels_eq_true_iff (ce cl : ElementMeta) :
    compare_channels ce cl = true ↔
      (ce.type = cl.type ∧
        (ce.type = "file" → ∀ co clo, ce.ontologies = some co → cl.ontologies = some clo →
          ∀ t ∈ clo, t ∈ co)) := by
  constructor
  · intro h
    unfold compare_channels at h
    split at h
    · exact absurd h (by simp)
    · split at h
      · exact absurd h (by simp)
      · next hty hfile =>
        refine ⟨by simpa using hty, ?_⟩
        intro hf co clo hco hclo t ht
        by_contra hmem
        exact hfile ⟨hf, by simp [hco], by simp [hclo], by
          simp only [hco, hclo, Option.getD_some, List.all_eq_true]
          push_neg
          exact ⟨t, ht, by simpa using hmem⟩⟩
  · rintro ⟨hty, hont⟩
    unfold compare_channels
    rw [if_neg (by simpa using hty)]
    rw [if_neg]
    rintro ⟨hf, hcs, hks, hall⟩
    apply hall
    simp only [List.all_eq_true]
    intro t ht
    obtain ⟨co, hco⟩ := Option.isSome_iff_exists.mp hcs
    obtain ⟨clo, hclo⟩ := Option.isSome_iff_exists.mp hks
    simp only [hco, hclo, Option.getD_some] at ht ⊢
    simpa using hont hf co clo hco hclo t ht

/-- C2 (corrected): elementwise channel comparison checks type equality
and, for `file`-typed elements where both sides declare ontologies, that
every class ontology term is present among the component's; filename
patterns are never examined, so pattern equality is NOT part of the
comparison. -/
theorem c2_elementwise_comparison (ce cl : ElementMeta) :
    (compare_channels ce cl = true ↔
      (ce.type = cl.type ∧
        (ce.type = "file" → ∀ co clo, ce.ontologies = some co → cl.ontologies = some clo →
          ∀ t ∈ clo, t ∈ co)))
    ∧ ∀ p q, compare_channels { ce with pattern := p } { cl with pattern := q }
        = compare_channels ce cl :=
  ⟨compare_channels_eq_true_iff ce cl, fun p q => compare_channels_pattern_irrelevant ce cl p q⟩

/-- C2, counterexample to the claim as stated: two `file` elements with
different filename patterns (and no ontologies) are reported compatible,
so compatibility does not require pattern equality. -/
theorem c2_counterexample :
    compare_channels fileElemBam fileElemSam = true
      ∧ fileElemBam.pattern ≠ fileElemSam.pattern := by
  decide

/-- C2 witness: the characterisation applied at a concrete pair. -/
theorem c2_witness :
    compare_channels strMetaEx strMetaEx = true :=
  (c2_elementwise_comparison strMetaEx strMetaEx).1.mpr
    ⟨rfl, fun h => by simp [strMetaEx] at h⟩

/-- C8 (confirmed): ontology constraints are only enforced when both
sides declare them: equal non-`file` types always compare compatible,
equal types with a missing `ontologies` key on either side always compare
compatible, and a rejection of equal-typed elements can only come from a
`file` type with an `ontologies` list on both sides whose subset check
fails. -/
theorem c8_ontologies_need_both_sides (ce cl : ElementMeta) :
    (ce.type = cl.type ∧ ce.type ≠ "file" → compare_channels ce cl = true)
    ∧ (ce.type = cl.type ∧ (ce.ontologies = none ∨ cl.ontologies = none) →
        compare_channels ce cl = true)
    ∧ (compare_channels ce cl = false → ce.type = cl.type →
        ce.type = "file" ∧ ∃ co clo, ce.ontologies = some co ∧ cl.ontologies = some clo ∧
          ¬ ∀ t ∈ clo, t ∈ co) := by
  refine ⟨?_, ?_, ?_⟩
  · rintro ⟨hty, hnf⟩
    rw [compare_channels_eq_true_iff]
    exact ⟨hty, fun hf => absurd hf hnf⟩
  · rintro ⟨hty, hnone⟩
    rw [compare_channels_eq_true_iff]
    refine ⟨hty, fun _ co clo hco hclo => ?_⟩
    rcases hnone with h | h <;> simp [h] at hco hclo
  · intro hfalse hty
    have hne : ¬ compare_channels ce cl = true := by simp [hfalse]
    rw [compare_channels_eq_true_iff] at hne
    push_neg at hne
    obtain ⟨hf, co, clo, hco, hclo, hnall⟩ := hne hty
    exact ⟨hf, co, clo, hco, hclo, fun hall => by
      obtain ⟨t, ht, hnt⟩ := hnall
      exact hnt (hall t ht)⟩

/-- C8 witness: the second conjunct applied at a concrete pair of `file`
elements where the component side has no `ontologies` key. -/
theorem c8_witness :
    compare_channels fileElemBam fileElemSam = true :=
  (c8_ontologies_need_both_sides fileElemBam fileElemSam).2.1 ⟨rfl, Or.inl rfl⟩

/-- C9 (confirmed): with `NFCLASS_NO_VERSION_CHECK` set to any non-empty
value, `check_if_outdated` returns `(True, "", "")` and performs no
network request: the result is this constant for every fetch function. -/
theorem c9_no_version_check (nf_class_version : String)
    (version_gt : String → String → Bool) (env_version_url : Option String)
    (fetch_remote_version : String → Option String)
    (current_version remote_version : Option String) (source_url : String)
    (s : String) (hs : s ≠ "") :
    check_if_outdated nf_class_version version_gt (some s) env_version_url
        fetch_remote_version current_version remote_version source_url
      = (true, "", some "") := by
  unfold check_if_outdated
  rw [if_pos]
  have hne : s.isEmpty = false := by
    rw [Bool.eq_false_iff]
    intro he
    exact hs ((String.isEmpty_iff s).mp he)
  simp [pyEnvTruthy, hne]

/-- C9 witness: the early return at a concrete environment value, with a
fetch function that would report a newer remote version if it ran. -/
theorem c9_witness :
    check_if_outdated "1.0" (fun _ _ => true) (some "1") none (fun _ => some "99.0")
        none none "https://github.com/mirpedrol/nf-class/releases/latest"
      = (true, "", some "") :=
  c9_no_version_check "1.0" (fun _ _ => true) none (fun _ => some "99.0") none none
    "https://github.com/mirpedrol/nf-class/releases/latest" "1" (by decide)

/-- C3 (code bug): requesting `expand_modules="a,b"` against a class
declaring no modules leaves `"b"` in `self.components`, because the loop
removes from the list it is iterating over and the iterator then skips
the element that slid into the removed slot; the claim (and the code's
own "Skipping" log message) say both requested modules should have been
dropped.  The second conjunct shows the empty-`expand_modules` branch
does return the full class module list. -/
theorem c3_failing_input :
    (get_modules_from_class "a,b" [] = ["b"] ∧ "b" ∉ ([] : List String))
      ∧ get_modules_from_class "" ["m", "n"] = ["m", "n"] := by
  decide

/-- C10 (confirmed): `get_available_classes` returns a list sorted
ascending under Python's string order that is a permutation of (one entry
per) the `.yml` files found, each truncated at its first `.yml`. -/
theorem c10_available_classes (walk_file_names : List (List String)) :
    List.Sorted (fun a b => pyStrLe a b = true) (get_available_classes walk_file_names)
    ∧ List.Perm (get_available_classes walk_file_names)
        ((walk_file_names.flatten.filter fun fn => pyEndsWith fn ".yml").map
          (pySplitFirst ".yml"))
    ∧ ∀ a, a ∈ get_available_classes walk_file_names ↔
        ∃ fn ∈ walk_file_names.flatten, pyEndsWith fn ".yml" = true
          ∧ a = pySplitFirst ".yml" fn := by
  unfold get_available_classes
  refine ⟨List.sorted_insertionSort _ _, List.perm_insertionSort _ _, ?_⟩
  intro a
  rw [List.Perm.mem_iff (List.perm_insertionSort _ _)]
  simp only [List.mem_map, List.mem_filter]
  constructor
  · rintro ⟨fn, ⟨hmem, hyml⟩, heq⟩
    exact ⟨fn, hmem, hyml, heq.symm⟩
  · rintro ⟨fn, hmem, hyml, heq⟩
    exact ⟨fn, ⟨hmem, hyml⟩, heq.symm⟩

/-- Elementwise reading of `all` over a `zip`. -/
theorem zip_all_iff_getElem {α β : Type} (p : α × β → Bool) (xs : List α) :
    ∀ ys : List β,
      ((xs.zip ys).all p = true ↔
        ∀ (i : Nat) (a : α) (b : β), xs[i]? = some a → ys[i]? = some b
          → p (a, b) = true) := by
  induction xs with
  | nil =>
    intro ys
    simp [List.zip]
  | cons x xs ih =>
    intro ys
    cases ys with
    | nil => simp [List.zip]
    | cons y ys =>
      simp only [List.zip_cons_cons, List.all_cons, Bool.and_eq_true, ih]
      constructor
      · rintro ⟨h0, h⟩ i a b ha hb
        cases i with
        | zero =>
          simp only [List.getElem?_cons_zero, Option.some.injEq] at ha hb
          rw [← ha, ← hb]
          exact h0
        | succ n =>
          simp only [List.getElem?_cons_succ] at ha hb
          exact h n a b ha hb
      · intro h
        exact ⟨h 0 x y (by simp) (by simp), fun i a b ha hb =>
          h (i + 1) a b (by simpa using ha) (by simpa using hb)⟩

/-- Unfolding of the list-against-list case of `input_channel_match`. -/
theorem input_channel_match_list_def (ces cls : List NamedElement) :
    input_channel_match (Channel.list ces) (Channel.list cls)
      = if (ces.length : Int) = (cls.length : Int) - 1 then
          (ces.zip cls).all fun p => compare_channels p.1.meta p.2.meta
        else false := rfl

/-- C6 (confirmed): a list-shaped component channel matches a class input
channel exactly when it has one element fewer than the class channel
(which carries the appended `tool` element) and every position compares
compatible; any other length difference yields no match. -/
theorem c6_positional_length_sensitive (ces cls : List NamedElement) :
    input_channel_match (Channel.list ces) (Channel.list cls) = true ↔
      (ces.length + 1 = cls.length ∧
        ∀ (i : Nat) (ec ek : NamedElement), ces[i]? = some ec → cls[i]? = some ek →
          compare_channels ec.meta ek.meta = true) := by
  rw [input_channel_match_list_def]
  by_cases h : (ces.length : Int) = (cls.length : Int) - 1
  · rw [if_pos h, zip_all_iff_getElem]
    constructor
    · intro hall
      exact ⟨by omega, fun i a b ha hb => hall i a b ha hb⟩
    · rintro ⟨-, hall⟩
      exact fun i a b ha hb => hall i a b ha hb
  · rw [if_neg h]
    constructor
    · intro habs
      cases habs
    · rintro ⟨hlen, -⟩
      exact absurd (by omega) h

/-- C6 witness: the characterisation applied to a concrete matching
pair. -/
theorem c6_witness :
    ([xElemEx] : List NamedElement).length + 1
      = ([xElemEx, toolElemEx] : List NamedElement).length :=
  ((c6_positional_length_sensitive [xElemEx] [xElemEx, toolElemEx]).mp (by decide)).1

/-- Python's `all(name in args for name in names)`. -/
theorem all_contains_iff (names args : List String) :
    (names.all fun name => args.contains name) = true ↔ ∀ name ∈ names, name ∈ args := by
  simp [List.all_eq_true, List.contains, List.elem_iff]

/-- C1 (confirmed): `_compare_inputs` returns `None` exactly when some
class input channel name is missing from the built argument list, a
component channel with no matching class channel still contributes its
fallback argument (built of `[]` entries) instead of failing, and
`_compare_outputs` returns `None` exactly when some class output channel
name is missing from the built mapping. -/
theorem c1_compatibility_requires_all_channels (inputs_yml : List Channel)
    (input_channel_names : List String) (component_info : List Channel)
    (outputs_yml component_outputs : List (String × Channel)) :
    (compare_inputs_expand inputs_yml input_channel_names component_info = none ↔
      ¬ ∀ name ∈ input_channel_names,
          name ∈ component_run_args_expand inputs_yml input_channel_names component_info)
    ∧ (∀ (i : Nat) (c : Channel), component_info[i]? = some c →
        find_input_arg (inputs_yml.zip input_channel_names) c = none →
        (component_run_args_expand inputs_yml input_channel_names component_info)[i]?
          = some (fallback_arg_expand c))
    ∧ (compare_outputs_expand outputs_yml component_outputs = none ↔
      ¬ ∀ name ∈ outputs_yml.map Prod.fst,
          name ∈ (component_out_channels_fold outputs_yml [] component_outputs).map
            Prod.fst) := by
  refine ⟨?_, ?_, ?_⟩
  · unfold compare_inputs_expand
    dsimp only
    split
    · next h =>
      constructor
      · intro habs
        cases habs
      · intro hn
        exact absurd ((all_contains_iff _ _).mp h) hn
    · next h =>
      constructor
      · intro _ hall
        exact h ((all_contains_iff _ _).mpr hall)
      · intro _
        rfl
  · intro i c hc hfind
    unfold component_run_args_expand
    rw [List.getElem?_map, hc]
    simp [hfind]
  · unfold compare_outputs_expand
    dsimp only
    split
    · next h =>
      constructor
      · intro habs
        cases habs
      · intro hn
        exact absurd ((all_contains_iff _ _).mp h) hn
    · next h =>
      constructor
      · intro _ hall
        exact h ((all_contains_iff _ _).mpr hall)
      · intro _
        rfl

/-- C1 witness: the fallback clause applied to a concrete unmatched
two-element component channel. -/
theorem c1_witness :
    (component_run_args_expand [] [] [compChanEx2])[0]?
      = some (fallback_arg_expand compChanEx2) :=
  (c1_compatibility_requires_all_channels [] [] [compChanEx2] [] []).2.1 0 compChanEx2
    (by decide) (by decide)

/-- Membership after a Python dict assignment. -/
theorem mem_dictSet (d : List (String × String)) (k v : String)
    (p : String × String) (h : p ∈ dictSet d k v) : p = (k, v) ∨ p ∈ d := by
  induction d with
  | nil =>
    simp [dictSet] at h
    exact Or.inl h
  | cons hd tl ih =>
    obtain ⟨k', v'⟩ := hd
    unfold dictSet at h
    split at h
    · rcases List.mem_cons.mp h with h | h
      · exact Or.inl h
      · exact Or.inr (List.mem_cons_of_mem _ h)
    · rcases List.mem_cons.mp h with h | h
      · exact Or.inr (h ▸ List.mem_cons_self _ _)
      · rcases ih h with h | h
        · exact Or.inl h
        · exact Or.inr (List.mem_cons_of_mem _ h)

/-- A successful `find_output_match` names a class output channel that
the component channel matches. -/
theorem find_output_match_spec (outputs_yml : List (String × Channel))
    (component_channel : Channel) (name : String)
    (h : find_output_match outputs_yml component_channel = some name) :
    ∃ class_channel, (name, class_channel) ∈ outputs_yml
      ∧ output_channel_match component_channel class_channel = true := by
  induction outputs_yml with
  | nil => simp [find_output_match] at h
  | cons hd tl ih =>
    obtain ⟨ch_name, class_channel⟩ := hd
    unfold find_output_match at h
    split at h
    · next hm =>
      obtain rfl := Option.some.injEq _ _ ▸ h
      exact ⟨class_channel, List.mem_cons_self _ _, hm⟩
    · obtain ⟨cc, hmem, hmatch⟩ := ih h
      exact ⟨cc, List.mem_cons_of_mem _ hmem, hmatch⟩

/-- Invariant of the `_compare_outputs` accumulation loop: every entry of
the built dict either was already in the accumulator or records a
component output channel matched to a class output channel. -/
theorem component_out_channels_fold_invariant (outputs_yml : List (String × Channel))
    (P : String × String → Prop) (component_outputs : List (String × Channel))
    (acc : List (String × String)) (hacc : ∀ p ∈ acc, P p)
    (hstep : ∀ cname cch name, (cname, cch) ∈ component_outputs →
      find_output_match outputs_yml cch = some name → P (name, cname)) :
    ∀ p ∈ component_out_channels_fold outputs_yml acc component_outputs, P p := by
  induction component_outputs generalizing acc with
  | nil => exact hacc
  | cons hd tl ih =>
    obtain ⟨cname, cch⟩ := hd
    unfold component_out_channels_fold
    split
    · next name hfind =>
      refine ih _ ?_ ?_
      · intro p hp
        rcases mem_dictSet _ _ _ _ hp with h | h
        · exact h ▸ hstep cname cch name (List.mem_cons_self _ _) hfind
        · exact hacc p h
      · intro cn cc nm hmem hf
        exact hstep cn cc nm (List.mem_cons_of_mem _ hmem) hf
    · refine ih _ hacc ?_
      intro cn cc nm hmem hf
      exact hstep cn cc nm (List.mem_cons_of_mem _ hmem) hf

/-- C7 (confirmed): a successful `_compare_outputs` returns a mapping
whose every entry pairs a class output channel name with the name of a
component output channel matched to it, and it returns `None` exactly
when some class output channel name is unmatched. -/
theorem c7_output_mapping (outputs_yml component_outputs : List (String × Channel)) :
    (∀ m, compare_outputs_expand outputs_yml component_outputs = some m →
      ∀ p ∈ m, ∃ class_channel, (p.1, class_channel) ∈ outputs_yml
        ∧ ∃ component_channel, (p.2, component_channel) ∈ component_outputs
          ∧ output_channel_match component_channel class_channel = true)
    ∧ (compare_outputs_expand outputs_yml component_outputs = none ↔
      ∃ name ∈ outputs_yml.map Prod.fst,
        name ∉ (component_out_channels_fold outputs_yml [] component_outputs).map
          Prod.fst) := by
  constructor
  · intro m hm p hp
    have hmeq : m = component_out_channels_fold outputs_yml [] component_outputs := by
      unfold compare_outputs_expand at hm
      dsimp only at hm
      split at hm
      · exact (Option.some.injEq _ _ ▸ hm).symm
      · cases hm
    subst hmeq
    refine component_out_channels_fold_invariant outputs_yml
      (fun q => ∃ class_channel, (q.1, class_channel) ∈ outputs_yml
        ∧ ∃ component_channel, (q.2, component_channel) ∈ component_outputs
          ∧ output_channel_match component_channel class_channel = true)
      component_outputs [] (by simp) ?_ p hp
    intro cname cch name hmem hfind
    obtain ⟨cc, hccmem, hmatch⟩ := find_output_match_spec outputs_yml cch name hfind
    exact ⟨cc, hccmem, cch, hmem, hmatch⟩
  · unfold compare_outputs_expand
    dsimp only
    split
    · next h =>
      constructor
      · intro habs
        cases habs
      · rintro ⟨name, hmem, hnot⟩
        exact absurd ((all_contains_iff _ _).mp h name hmem) hnot
    · next h =>
      constructor
      · intro _
        by_contra hne
        push_neg at hne
        exact h ((all_contains_iff _ _).mpr hne)
      · intro _
        rfl

/-- C7 witness: the mapping characterisation applied at a concrete class
and component output schema. -/
theorem c7_witness :
    ∃ class_channel,
      ("bam", class_channel) ∈ [("bam", Channel.dict xElemEx [])]
      ∧ ∃ component_channel,
          ("sorted", component_channel) ∈ [("sorted", Channel.dict toolElemEx [])]
          ∧ output_channel_match component_channel class_channel = true :=
  (c7_output_mapping [("bam", Channel.dict xElemEx [])]
    [("sorted", Channel.dict toolElemEx [])]).1
    [("bam", "sorted")] (by decide) ("bam", "sorted") (by decide)

theorem pyStrListOfEmpty_zero : pyStrListOfEmpty 0 = "[]" := by decide

/-- Every fallback of the expand variant is some `str([[]] * n)`. -/
theorem fallback_arg_expand_range (c : Channel) :
    ∃ n : Nat, fallback_arg_expand c = pyStrListOfEmpty n := by
  unfold fallback_arg_expand
  split
  · exact ⟨channelPyLen c, rfl⟩
  · exact ⟨0, pyStrListOfEmpty_zero.symm⟩

theorem pyStrListOfEmpty_data_head (n : Nat) :
    (pyStrListOfEmpty n).data.head? = some '[' := by
  unfold pyStrListOfEmpty
  have hbr : ("[" : String).data = ['['] := rfl
  simp [String.data_append, hbr]

/-- A name that is no fallback string is produced by either argument
builder exactly through a successful match, so both builders agree on
membership of such names. -/
theorem run_args_mem_iff (inputs_yml : List Channel) (input_channel_names : List String)
    (component_info : List Channel) (name : String)
    (hname : ∀ n : Nat, name ≠ pyStrListOfEmpty n) :
    (name ∈ component_run_args_expand inputs_yml input_channel_names component_info ↔
      name ∈ component_run_args_swf inputs_yml input_channel_names component_info) := by
  unfold component_run_args_expand component_run_args_swf
  simp only [List.mem_map]
  constructor
  · rintro ⟨c, hc, heq⟩
    refine ⟨c, hc, ?_⟩
    cases hfind : find_input_arg (inputs_yml.zip input_channel_names) c with
    | some ch_name =>
      rw [hfind] at heq
      exact heq
    | none =>
      rw [hfind] at heq
      obtain ⟨n, hn⟩ := fallback_arg_expand_range c
      exact absurd (hn ▸ show fallback_arg_expand c = name from heq).symm (hname n)
  · rintro ⟨c, hc, heq⟩
    refine ⟨c, hc, ?_⟩
    cases hfind : find_input_arg (inputs_yml.zip input_channel_names) c with
    | some ch_name =>
      rw [hfind] at heq
      exact heq
    | none =>
      rw [hfind] at heq
      exact absurd (pyStrListOfEmpty_zero ▸ show ("[]" : String) = name from heq).symm
        (hname 0)

/-- Under the same no-fallback-name proviso, the two success conditions
coincide. -/
theorem compare_inputs_cond_eq (inputs_yml : List Channel) (input_channel_names : List String)
    (component_info : List Channel)
    (hN : ∀ name ∈ input_channel_names, ∀ n : Nat, name ≠ pyStrListOfEmpty n) :
    (input_channel_names.all fun name =>
        (component_run_args_expand inputs_yml input_channel_names component_info).contains name)
      = (input_channel_names.all fun name =>
        (component_run_args_swf inputs_yml input_channel_names component_info).contains name) := by
  have hiff :
      (input_channel_names.all fun name =>
        (component_run_args_expand inputs_yml input_channel_names
          component_info).contains name) = true ↔
      (input_channel_names.all fun name =>
        (component_run_args_swf inputs_yml input_channel_names
          component_info).contains name) = true := by
    rw [all_contains_iff, all_contains_iff]
    constructor <;> intro h name hmem
    · exact (run_args_mem_iff inputs_yml input_channel_names component_info name
        (hN name hmem)).mp (h name hmem)
    · exact (run_args_mem_iff inputs_yml input_channel_names component_info name
        (hN name hmem)).mpr (h name hmem)
  cases hA : (input_channel_names.all fun name =>
      (component_run_args_expand inputs_yml input_channel_names
        component_info).contains name) with
  | false =>
    cases hB : (input_channel_names.all fun name =>
        (component_run_args_swf inputs_yml input_channel_names
          component_info).contains name) with
    | false => rfl
    | true => exact absurd (hiff.mpr hB) (by rw [hA]; exact Bool.false_ne_true)
  | true =>
    cases hB : (input_channel_names.all fun name =>
        (component_run_args_swf inputs_yml input_channel_names
          component_info).contains name) with
    | false => exact absurd (hiff.mp hA) (by rw [hB]; exact Bool.false_ne_true)
    | true => rfl

/-- C4 (corrected): provided no class input channel name is itself a
fallback string `str([[]] * n)`, the two `_compare_inputs` variants agree
on success/failure, and their argument lists agree position by position
except at an unmatched component channel, where the expand variant emits
its length-dependent fallback and the subworkflow variant emits `"[]"`. -/
theorem c4_input_variants_agree (inputs_yml : List Channel) (input_channel_names : List String)
    (component_info : List Channel)
    (hN : ∀ name ∈ input_channel_names, ∀ n : Nat, name ≠ pyStrListOfEmpty n) :
    (compare_inputs_expand inputs_yml input_channel_names component_info = none ↔
      compare_inputs_swf inputs_yml input_channel_names component_info = none)
    ∧ ∀ (i : Nat) (c : Channel), component_info[i]? = some c →
        (component_run_args_expand inputs_yml input_channel_names component_info)[i]?
          = (component_run_args_swf inputs_yml input_channel_names component_info)[i]?
        ∨ (find_input_arg (inputs_yml.zip input_channel_names) c = none
            ∧ (component_run_args_expand inputs_yml input_channel_names component_info)[i]?
              = some (fallback_arg_expand c)
            ∧ (component_run_args_swf inputs_yml input_channel_names component_info)[i]?
              = some "[]") := by
  constructor
  · unfold compare_inputs_expand compare_inputs_swf
    dsimp only
    rw [compare_inputs_cond_eq inputs_yml input_channel_names component_info hN]
    split
    · simp
    · simp
  · intro i c hc
    unfold component_run_args_expand component_run_args_swf
    rw [List.getElem?_map, List.getElem?_map, hc]
    simp only [Option.map_some']
    cases hfind : find_input_arg (inputs_yml.zip input_channel_names) c with
    | some name =>
      left
      rfl
    | none =>
      right
      exact ⟨rfl, rfl, rfl⟩

/-- C4, counterexample to the claim as stated: on a class with one input
channel and a component with a matched one-element channel plus an
unmatched two-element channel, the two variants both succeed but return
different argument lists. -/
theorem c4_counterexample :
    compare_inputs_expand [classChanEx] ["ch_a"] [compChanEx, compChanEx2]
        = some ["ch_a", "[[], []]"]
    ∧ compare_inputs_swf [classChanEx] ["ch_a"] [compChanEx, compChanEx2]
        = some ["ch_a", "[]"]
    ∧ compare_inputs_expand [classChanEx] ["ch_a"] [compChanEx, compChanEx2]
        ≠ compare_inputs_swf [classChanEx] ["ch_a"] [compChanEx, compChanEx2] := by
  decide

/-- C4 witness: the agreement theorem applied at a concrete class and
component schema. -/
theorem c4_witness :
    compare_inputs_expand [classChanEx] ["ch_a"] [compChanEx] = none ↔
      compare_inputs_swf [classChanEx] ["ch_a"] [compChanEx] = none :=
  (c4_input_variants_agree [classChanEx] ["ch_a"] [compChanEx] (by
    intro name hmem n heq
    simp only [List.mem_singleton] at hmem
    subst hmem
    have h1 : ("ch_a" : String).data.head? = (pyStrListOfEmpty n).data.head? := by
      rw [heq]
    rw [pyStrListOfEmpty_data_head] at h1
    exact absurd h1 (by decide))).1

/-- `Char.toUpper` never yields a lowercase `c`: uppercasing a letter
lands in `A`-`Z`, and any other character equal to `c` would itself be
lowercase. -/
theorem toUpper_ne_c (c : Char) : c.toUpper ≠ 'c' := by
  intro h
  simp only [Char.toUpper] at h
  split at h
  · next hc =>
    have hv : (c.toNat - 32).isValidChar := by
      unfold Nat.isValidChar
      omega
    have h2 := congrArg Char.toNat h
    rw [Char.ofNat, dif_pos hv] at h2
    simp [Char.ofNatAux, Char.toNat, UInt32.ofNat', UInt32.toNat] at h2
    simp [Char.toNat, UInt32.toNat] at hc
    omega
  · next hc =>
    subst h
    simp [Char.toNat, UInt32.size] at hc

/-- C5 (confirmed): the `run_module` text generated for one component
starts with the invocation statement `MODULE_NAME( ... )` exactly when
matching the component's declared inputs against the class's input
channels succeeds with a truthy argument list; a component whose inputs
do not implement the class contract contributes no invocation
statement. -/
theorem c5_invocation_iff_match (component : String) (inputs_yml : List Channel)
    (input_channel_names : List String) (component_inputs : List Channel)
    (component_outs : Option (List (String × String))) :
    (∃ rest, run_module_chunk (module_name_of component)
        (compare_inputs_expand inputs_yml input_channel_names component_inputs)
        component_outs
      = invocation_statement (module_name_of component)
          ((compare_inputs_expand inputs_yml input_channel_names component_inputs).getD [])
        ++ rest)
    ↔ pyTruthyList (compare_inputs_expand inputs_yml input_channel_names component_inputs)
        = true := by
  generalize compare_inputs_expand inputs_yml input_channel_names component_inputs = args
  constructor
  · rintro ⟨rest, hrest⟩
    by_contra hf
    have hfalse : pyTruthyList args = false := by
      cases h : pyTruthyList args
      · rfl
      · exact absurd h hf
    have hargs0 : args.getD [] = [] := by
      cases args with
      | none => rfl
      | some l =>
        cases l with
        | nil => rfl
        | cons a t => simp [pyTruthyList, List.isEmpty] at hfalse
    unfold run_module_chunk invocation_statement at hrest
    rw [hfalse, hargs0] at hrest
    cases htruthy : pyTruthyPairs component_outs with
    | false =>
      rw [htruthy] at hrest
      simp only [Bool.false_eq_true, if_false] at hrest
      have hlen := congrArg List.length (congrArg String.data hrest)
      simp [String.data_append] at hlen
    | true =>
      rw [htruthy] at hrest
      simp only [Bool.false_eq_true, if_false, if_true] at hrest
      obtain ⟨l, hl⟩ : ∃ l, component_outs = some l := by
        cases component_outs with
        | none => simp [pyTruthyPairs] at htruthy
        | some l => exact ⟨l, rfl⟩
      subst hl
      obtain ⟨o, co, t, hlt⟩ : ∃ o co t, l = (o, co) :: t := by
        cases l with
        | nil => simp [pyTruthyPairs, List.isEmpty] at htruthy
        | cons hd tl => exact ⟨hd.1, hd.2, tl, by simp⟩
      subst hlt
      unfold mix_statements at hrest
      have hdata := congrArg String.data hrest
      have h11 : ("    ch_out_" : String).data
          = [' ', ' ', ' ', ' ', 'c', 'h', '_', 'o', 'u', 't', '_'] := rfl
      have h4 : ("    " : String).data = [' ', ' ', ' ', ' '] := rfl
      have hsp : ("( " : String).data = ['(', ' '] := rfl
      have hni : (String.intercalate ", " ([] : List String)).data = [] := rfl
      have hname : (module_name_of component).data
          = (pyReplaceSlashUnderscore component).data.map Char.toUpper := rfl
      simp only [String.data_append, Option.getD_some, List.append_assoc,
        List.nil_append, h11, h4, hsp, hni, hname, List.cons_append,
        List.cons.injEq, true_and] at hdata
      cases hb : (pyReplaceSlashUnderscore component).data with
      | nil =>
        rw [hb] at hdata
        simp only [List.map_nil, List.nil_append, List.cons.injEq] at hdata
        exact absurd hdata.1 (by decide)
      | cons x xs =>
        rw [hb] at hdata
        simp only [List.map_cons, List.cons_append, List.cons.injEq] at hdata
        exact absurd hdata.1.symm (toUpper_ne_c x)
  · intro htruthy
    refine ⟨(if pyTruthyPairs component_outs then
        mix_statements (module_name_of component) (component_outs.getD []) else "")
      ++ "\n", ?_⟩
    unfold run_module_chunk
    rw [htruthy]
    apply String.ext
    simp [String.data_append, List.append_assoc]
